import Mathlib

/-!
A verification development for the prompt-to-command translation pipeline of
the cinema-command plugin (sources: `src/agent.py`, `src/api_handler.py`).

The Python code is shallowly embedded: every operation the pipeline performs
is translated to an executable Lean function over an explicit JSON value
model.  Python exceptions are modelled with `Except`/`Option`; functions that
the code makes total by catching exceptions are total here.  IEEE floats are
modelled as exact fractions (every numeral handled by the pipeline is a short
decimal literal, exactly representable either way).  Case folding and
character classes are the ASCII fragments of their Python counterparts; all
strings the pipeline manipulates are ASCII.
-/

/-- Python `float` values, kept as an exactly-normalized fraction. -/
structure PyFloat where
  num : Int
  den : Nat
deriving DecidableEq

/-- Build a `PyFloat` from a raw fraction, reducing it to lowest terms. -/
def pyFloatOf (num : Int) (den : Nat) : PyFloat :=
  let g := Nat.gcd num.natAbs den
  PyFloat.mk (num / (g : Int)) (den / g)

/-- The JSON-compatible values manipulated by the pipeline: the same shapes
`json.loads` can produce, with Python's `int`/`float` distinction kept.
Objects are key-ordered association lists, mirroring Python's insertion-ordered
`dict`. -/
inductive Json where
  | null : Json
  | bool (b : Bool) : Json
  | int (n : Int) : Json
  | float (q : PyFloat) : Json
  | str (s : String) : Json
  | arr (elements : List Json) : Json
  | obj (fields : List (String × Json)) : Json

def lbrace : Char := Char.ofNat 123

def rbrace : Char := Char.ofNat 125

def btick : Char := Char.ofNat 96

/-- Python's `str.strip()` whitespace set (ASCII part): space, tab, newline,
carriage return, vertical tab, form feed.  This is also `re`'s `\s` class. -/
def isPyWs (c : Char) : Bool :=
  c = ' ' || c = '\t' || c = '\n' || c = '\r' || c = Char.ofNat 11 || c = Char.ofNat 12

/-- Python `str.strip()` with no argument. -/
def pyStrip (cs : List Char) : List Char :=
  ((cs.dropWhile isPyWs).reverse.dropWhile isPyWs).reverse

/-- Python `str.strip(chars)`: strip characters satisfying `p` from both ends. -/
def pyStripSet (p : Char → Bool) (cs : List Char) : List Char :=
  ((cs.dropWhile p).reverse.dropWhile p).reverse

/-- Python `str.lower()` (ASCII case folding). -/
def pyLower (cs : List Char) : List Char := cs.map Char.toLower

/-- Python's substring test `needle in haystack`. -/
def pySubstr (needle : List Char) : List Char → Bool
  | [] => needle.isEmpty
  | c :: cs => needle.isPrefixOf (c :: cs) || pySubstr needle cs

/-- Python's `str.startswith`. -/
def pyStartsWith (pre : String) (cs : List Char) : Bool := pre.toList.isPrefixOf cs

/-- Worker for `pySplitOn`.  The fuel argument starts at the length of the
string and dominates it throughout, so the fuel-exhausted branch is never
taken. -/
def splitOnSubAux (s0 : Char) (srest : List Char) : Nat → List Char → List Char → List (List Char)
  | _, [], acc => [acc.reverse]
  | 0, c :: cs, acc => [acc.reverse ++ c :: cs]
  | n + 1, c :: cs, acc =>
    if (s0 :: srest).isPrefixOf (c :: cs) then
      acc.reverse :: splitOnSubAux s0 srest n (cs.drop srest.length) []
    else splitOnSubAux s0 srest n cs (c :: acc)

/-- Python's `str.split(sep)` for a non-empty separator: split on every
leftmost non-overlapping occurrence, keeping empty pieces. -/
def pySplitOn (sep : String) (s : List Char) : List (List Char) :=
  match sep.toList with
  | [] => [s]
  | s0 :: srest => splitOnSubAux s0 srest s.length s []

/-- Digits of a decimal numeral to a natural number. -/
def digitsToNat (ds : List Char) : Nat :=
  ds.foldl (fun a c => a * 10 + (c.toNat - 48)) 0

def takeDigits (cs : List Char) : List Char × List Char :=
  (cs.takeWhile Char.isDigit, cs.dropWhile Char.isDigit)

/-- Python `int(str)`: optional sign around a non-empty digit string, with
surrounding whitespace allowed.  (Underscore separators and non-ASCII digits
are not modelled; the pipeline never produces them.) -/
def pyIntOf (cs : List Char) : Option Int :=
  let t := pyStrip cs
  let (neg, t1) :=
    match t with
    | c :: r => if c = '-' then (true, r) else if c = '+' then (false, r) else (false, t)
    | [] => (false, t)
  if t1 ≠ [] ∧ t1.all Char.isDigit then
    let v : Int := Int.ofNat (digitsToNat t1)
    some (if neg then -v else v)
  else none

/-- The numeric value `± m × 10^scale` as a `PyFloat`. -/
def mkPyFloat (neg : Bool) (m : Nat) (scale : Int) : PyFloat :=
  let n : Int := if neg then -(m : Int) else (m : Int)
  if 0 ≤ scale then pyFloatOf (n * (10 : Int) ^ scale.toNat) 1
  else pyFloatOf n (10 ^ (-scale).toNat)

/-- Exponent part `[eE][+-]?digits` of a numeric literal.  Returns `none` on a
malformed exponent, `some (none, rest)` when no exponent is present. -/
def parseExpPart (r2 : List Char) : Option (Option (Bool × List Char) × List Char) :=
  match r2 with
  | c :: r =>
    if c = 'e' ∨ c = 'E' then
      let (sgn, r') :=
        match r with
        | s :: rr =>
          if s = '+' then (false, rr) else if s = '-' then (true, rr) else (false, r)
        | [] => (false, r)
      let (ds, r'') := takeDigits r'
      if ds.isEmpty then none else some (some (sgn, ds), r'')
    else some (none, r2)
  | [] => some (none, r2)

/-- Python `float(str)`: optional sign, digits with an optional decimal point
(at least one digit overall), optional exponent; surrounding whitespace
allowed.  (`inf`/`nan` literals and underscores are not modelled; the pipeline
never produces them.) -/
def pyFloatParse (cs : List Char) : Option PyFloat :=
  let t := pyStrip cs
  let (neg, t1) :=
    match t with
    | c :: r => if c = '-' then (true, r) else if c = '+' then (false, r) else (false, t)
    | [] => (false, t)
  let (ip, r1) := takeDigits t1
  let (fp, r2) :=
    match r1 with
    | c :: r => if c = '.' then ((takeDigits r).1, (takeDigits r).2) else ([], r1)
    | [] => ([], r1)
  if ip.isEmpty ∧ fp.isEmpty then none
  else
    match parseExpPart r2 with
    | none => none
    | some (ep, r3) =>
      if r3.isEmpty then
        let eSign := (ep.getD (false, [])).1
        let eMag : Int := Int.ofNat (digitsToNat ((ep.getD (false, [])).2))
        let scale : Int := (if eSign then -eMag else eMag) - (fp.length : Int)
        some (mkPyFloat neg (digitsToNat (ip ++ fp)) scale)
      else none

/-! ### `json.loads`

A strict JSON reader mirroring Python's `json.loads`: blank-line blocks parsed
by the pipeline either yield one JSON value consuming the entire block (up to
JSON whitespace) or raise `JSONDecodeError`, modelled as `none`.  (`NaN` and
`Infinity` extensions are not modelled; fuel is generous enough for any input
the fuel bound `2·length + 2` admits, i.e. all inputs.) -/

/-- JSON's whitespace set (narrower than Python's `str.strip` set). -/
def jsonWs (c : Char) : Bool := c = ' ' || c = '\t' || c = '\n' || c = '\r'

def skipWs (cs : List Char) : List Char := cs.dropWhile jsonWs

def escChar (e : Char) : Option Char :=
  if e = '"' then some '"'
  else if e = '\\' then some '\\'
  else if e = '/' then some '/'
  else if e = 'b' then some (Char.ofNat 8)
  else if e = 'f' then some (Char.ofNat 12)
  else if e = 'n' then some '\n'
  else if e = 'r' then some '\r'
  else if e = 't' then some '\t'
  else none

def hexVal (c : Char) : Option Nat :=
  if c.isDigit then some (c.toNat - 48)
  else if 'a' ≤ c ∧ c ≤ 'f' then some (c.toNat - 87)
  else if 'A' ≤ c ∧ c ≤ 'F' then some (c.toNat - 55)
  else none

/-- Body of a JSON string literal after the opening quote: returns the decoded
characters and the input after the closing quote. -/
def parseStringBody : List Char → Option (List Char × List Char)
  | [] => none
  | c :: rest =>
    if c = '"' then some ([], rest)
    else if c = '\\' then
      match rest with
      | [] => none
      | e :: rest2 =>
        if e = 'u' then
          match rest2 with
          | h1 :: h2 :: h3 :: h4 :: rest3 =>
            match hexVal h1, hexVal h2, hexVal h3, hexVal h4 with
            | some a, some b, some c3, some d =>
              match parseStringBody rest3 with
              | some (s, r) => some (Char.ofNat (((a * 16 + b) * 16 + c3) * 16 + d) :: s, r)
              | none => none
            | _, _, _, _ => none
          | _ => none
        else
          match escChar e with
          | some ec =>
            match parseStringBody rest2 with
            | some (s, r) => some (ec :: s, r)
            | none => none
          | none => none
    else if c.toNat < 32 then none
    else
      match parseStringBody rest with
      | some (s, r) => some (c :: s, r)
      | none => none

/-- Numeric value from sign, integer digits, optional fraction digits, and
optional exponent: an `int` when neither fraction nor exponent is present,
else a `float`, as in Python's `json`. -/
def mkJsonNumber (neg : Bool) (ip : List Char) (fp : Option (List Char))
    (ep : Option (Bool × List Char)) : Json :=
  match fp, ep with
  | none, none =>
    let v : Int := Int.ofNat (digitsToNat ip)
    Json.int (if neg then -v else v)
  | _, _ =>
    let flen := (fp.getD []).length
    let m : Nat := digitsToNat (ip ++ fp.getD [])
    let eSign := (ep.getD (false, [])).1
    let eMag : Int := Int.ofNat (digitsToNat ((ep.getD (false, [])).2))
    let scale : Int := (if eSign then -eMag else eMag) - (flen : Int)
    Json.float (mkPyFloat neg m scale)

/-- Fraction part `.digits` of a JSON number; `none` on a bare dot. -/
def parseFracPart (r1 : List Char) : Option (Option (List Char) × List Char) :=
  match r1 with
  | c :: r =>
    if c = '.' then
      let (ds, r') := takeDigits r
      if ds.isEmpty then none else some (some ds, r')
    else some (none, r1)
  | [] => some (none, r1)

/-- JSON numeric literal (strict grammar: no leading zeros, fraction and
exponent need at least one digit). -/
def parseJsonNumber (cs : List Char) : Option (Json × List Char) :=
  let (neg, cs1) :=
    match cs with
    | c :: r => if c = '-' then (true, r) else (false, cs)
    | [] => (false, cs)
  match cs1 with
  | [] => none
  | d :: _ =>
    if d.isDigit then
      let (ip, r1) := takeDigits cs1
      if 1 < ip.length ∧ ip.headD '0' = '0' then none
      else
        match parseFracPart r1 with
        | none => none
        | some (fp, r2) =>
          match parseExpPart r2 with
          | none => none
          | some (ep, r3) => some (mkJsonNumber neg ip fp ep, r3)
    else none

/-- Map insertion with Python `dict` semantics: an existing key keeps its
position and gets the new value, a new key is appended.  Also the duplicate
key policy of `json.loads` (last value wins). -/
def pySetEntry : List (String × Json) → String → Json → List (String × Json)
  | [], k, v => [(k, v)]
  | (k', v') :: rest, k, v =>
    if k' = k then (k', v) :: rest else (k', v') :: pySetEntry rest k v

/-- Python `dict` key lookup. -/
def jGet : List (String × Json) → String → Option Json
  | [], _ => none
  | (k', v) :: rest, k => if k' = k then some v else jGet rest k

/-- Parsing mode of the JSON reader: a value, the members of an object after
its opening brace, or the elements of an array after its opening bracket. -/
inductive JMode where
  | value : JMode
  | members : List (String × Json) → JMode
  | elems : List Json → JMode

/-- The JSON reader; structurally recursive on fuel. -/
def jparse : Nat → JMode → List Char → Option (Json × List Char)
  | 0, _, _ => none
  | n + 1, JMode.value, cs =>
    match skipWs cs with
    | [] => none
    | c :: rest =>
      if c = lbrace then
        match skipWs rest with
        | c2 :: rest2 =>
          if c2 = rbrace then some (Json.obj [], rest2)
          else jparse n (JMode.members []) (c2 :: rest2)
        | [] => none
      else if c = '[' then
        match skipWs rest with
        | c2 :: rest2 =>
          if c2 = ']' then some (Json.arr [], rest2)
          else jparse n (JMode.elems []) (c2 :: rest2)
        | [] => none
      else if c = '"' then
        match parseStringBody rest with
        | some (s, r) => some (Json.str (String.mk s), r)
        | none => none
      else
        match c :: rest with
        | 't' :: 'r' :: 'u' :: 'e' :: r => some (Json.bool true, r)
        | 'f' :: 'a' :: 'l' :: 's' :: 'e' :: r => some (Json.bool false, r)
        | 'n' :: 'u' :: 'l' :: 'l' :: r => some (Json.null, r)
        | cs' => parseJsonNumber cs'
  | n + 1, JMode.members acc, cs =>
    match skipWs cs with
    | [] => none
    | c :: rest =>
      if c = '"' then
        match parseStringBody rest with
        | some (k, r1) =>
          match skipWs r1 with
          | c2 :: r2 =>
            if c2 = ':' then
              match jparse n JMode.value r2 with
              | some (v, r3) =>
                let acc2 := pySetEntry acc (String.mk k) v
                match skipWs r3 with
                | c3 :: r4 =>
                  if c3 = ',' then jparse n (JMode.members acc2) r4
                  else if c3 = rbrace then some (Json.obj acc2, r4)
                  else none
                | [] => none
              | none => none
            else none
          | [] => none
        | none => none
      else none
  | n + 1, JMode.elems acc, cs =>
    match jparse n JMode.value cs with
    | some (v, r1) =>
      match skipWs r1 with
      | c2 :: r2 =>
        if c2 = ',' then jparse n (JMode.elems (acc ++ [v])) r2
        else if c2 = ']' then some (Json.arr (acc ++ [v]), r2)
        else none
      | [] => none
    | none => none

/-- Python `json.loads` on a character list: one JSON value must consume the
whole input up to JSON whitespace. -/
def pyJsonLoadsL (cs : List Char) : Option Json :=
  match jparse (2 * cs.length + 2) JMode.value cs with
  | some (v, rest) => if (skipWs rest).isEmpty then some v else none
  | none => none

/-- Python `json.loads` on a string. -/
def pyJsonLoads (s : String) : Option Json := pyJsonLoadsL s.toList

/-- Python truthiness of a JSON-shaped value (`if commands:`). -/
def pyTruthy : Json → Bool
  | Json.null => false
  | Json.bool b => b
  | Json.int n => n != 0
  | Json.float q => q.num != 0
  | Json.str s => s != ""
  | Json.arr xs => !xs.isEmpty
  | Json.obj fs => !fs.isEmpty

/-- `isinstance(cmd, dict) and "action" in cmd`: the acceptance test every
extraction strategy applies before emitting a command. -/
def isCommandDict : Json → Bool
  | Json.obj fs => (jGet fs "action").isSome
  | _ => false

/-! ### Regular expressions

A small Brzozowski-derivative matcher, enough for the `re.search` /
`re.findall` calls of `agent.py`.  `re.IGNORECASE` is modelled by matching the
input character's lower-case form against a lower-case pattern character. -/

inductive Rx where
  | fail : Rx
  | eps : Rx
  | cls (p : Char → Bool) : Rx
  | seq (a b : Rx) : Rx
  | alt (a b : Rx) : Rx
  | star (a : Rx) : Rx

def Rx.nullable : Rx → Bool
  | Rx.fail => false
  | Rx.eps => true
  | Rx.cls _ => false
  | Rx.seq a b => a.nullable && b.nullable
  | Rx.alt a b => a.nullable || b.nullable
  | Rx.star _ => true

/-- `seq` with unit and absorbing laws applied (a semantic-preserving
simplification keeping derivative terms small). -/
def rxSeq : Rx → Rx → Rx
  | Rx.fail, _ => Rx.fail
  | Rx.eps, b => b
  | _, Rx.fail => Rx.fail
  | a, Rx.eps => a
  | a, b => Rx.seq a b

/-- `alt` with failure units removed. -/
def rxAlt : Rx → Rx → Rx
  | Rx.fail, b => b
  | a, Rx.fail => a
  | a, b => Rx.alt a b

def Rx.deriv : Rx → Char → Rx
  | Rx.fail, _ => Rx.fail
  | Rx.eps, _ => Rx.fail
  | Rx.cls p, c => if p c then Rx.eps else Rx.fail
  | Rx.seq a b, c =>
    if a.nullable then rxAlt (rxSeq (a.deriv c) b) (b.deriv c) else rxSeq (a.deriv c) b
  | Rx.alt a b, c => rxAlt (a.deriv c) (b.deriv c)
  | Rx.star a, c => rxSeq (a.deriv c) (Rx.star a)

/-- Does some prefix of the input match? -/
def Rx.prefMatch : Rx → List Char → Bool
  | r, [] => r.nullable
  | r, c :: cs => r.nullable || (r.deriv c).prefMatch cs

/-- Python `re.search` as a Boolean: does the pattern match anywhere? -/
def Rx.search : Rx → List Char → Bool
  | r, [] => r.nullable
  | r, c :: cs => r.prefMatch (c :: cs) || r.search cs

/-- A pattern character under `re.IGNORECASE` (pattern characters are written
lower-case). -/
def rxCharCI (c : Char) : Rx := Rx.cls (fun x => x.toLower = c)

def rxStrCI (s : String) : Rx := s.toList.foldr (fun c r => Rx.seq (rxCharCI c) r) Rx.eps

def rxAltL (l : List Rx) : Rx := l.foldr Rx.alt Rx.fail

def rxOpt (r : Rx) : Rx := Rx.alt Rx.eps r

def rxPlus (r : Rx) : Rx := Rx.seq r (Rx.star r)

/-- `\s`. -/
def rxWs : Rx := Rx.cls isPyWs

/-- `(?:create|add|make)` of the natural-language fallback patterns. -/
def rxVerb : Rx := rxAltL [rxStrCI "create", rxStrCI "add", rxStrCI "make"]

/-- `(?:create|add|make)\s+a\s+<noun>`. -/
def rxNounPhrase (noun : String) : Rx :=
  Rx.seq rxVerb (Rx.seq (rxPlus rxWs) (Rx.seq (rxStrCI "a") (Rx.seq (rxPlus rxWs) (rxStrCI noun))))

/-- `(?:create|add|make)\s+a\s+(?:red\s+)?cube`. -/
def rxCubePhrase : Rx :=
  Rx.seq rxVerb (Rx.seq (rxPlus rxWs) (Rx.seq (rxStrCI "a") (Rx.seq (rxPlus rxWs)
    (Rx.seq (rxOpt (Rx.seq (rxStrCI "red") (rxPlus rxWs))) (rxStrCI "cube")))))

/-- The fixed natural-language fallback table of
`Agent.parse_commands_from_ai` (step 4), in source (dict insertion) order:
each pattern that matches contributes its fixed command. -/
def nlPatterns : List (Rx × Json) :=
  [(rxCubePhrase,
      Json.obj [("action", Json.str "AddCube"),
        ("args", Json.obj [("size", Json.int 100), ("name", Json.str "Cube")])]),
   (rxNounPhrase "sphere",
      Json.obj [("action", Json.str "AddSphere"),
        ("args", Json.obj [("diameter", Json.int 100)])]),
   (rxNounPhrase "camera",
      Json.obj [("action", Json.str "AddCamera"), ("args", Json.obj [])]),
   (rxNounPhrase "light",
      Json.obj [("action", Json.str "AddLight"),
        ("args", Json.obj [("type", Json.str "point")])]),
   (rxNounPhrase "material",
      Json.obj [("action", Json.str "CreateMaterial"),
        ("args", Json.obj [("name", Json.str "NewMaterial")])])]

/-- `add(?:ing|ed)?` / `apply(?:ing|ed)?` / `group(?:ing|ed)?` verb stems of
`Agent.extract_commands`. -/
def rxVerbIngEd (stem : String) : Rx :=
  Rx.seq (rxStrCI stem) (rxOpt (Rx.alt (rxStrCI "ing") (rxStrCI "ed")))

/-- `creat(?:e|ing|ed)`. -/
def rxCreat : Rx :=
  Rx.seq (rxStrCI "creat") (rxAltL [rxStrCI "e", rxStrCI "ing", rxStrCI "ed"])

/-- `\s+(?:a|the)?\s+<noun>`. -/
def rxArtNoun (noun : String) : Rx :=
  Rx.seq (rxPlus rxWs) (Rx.seq (rxOpt (Rx.alt (rxStrCI "a") (rxStrCI "the")))
    (Rx.seq (rxPlus rxWs) (rxStrCI noun)))

/-- The fixed pattern table of `Agent.extract_commands`, in source order. -/
def ecPatterns : List (Rx × String × Json) :=
  [(Rx.seq (rxVerbIngEd "add") (rxArtNoun "cube"), "AddCube",
      Json.obj [("size", Json.int 200)]),
   (Rx.seq (rxVerbIngEd "add") (rxArtNoun "sphere"), "AddSphere",
      Json.obj [("radius", Json.int 100)]),
   (Rx.seq rxCreat (rxArtNoun "material"), "CreateMaterial",
      Json.obj [("name", Json.str "NewMaterial")]),
   (Rx.seq (rxVerbIngEd "apply") (rxArtNoun "material"), "ApplyMaterial", Json.obj []),
   (Rx.seq (rxVerbIngEd "add") (rxArtNoun "camera"), "AddCamera", Json.obj []),
   (rxStrCI "duplicate", "Duplicate", Json.obj [("count", Json.int 1)]),
   (rxVerbIngEd "group", "GroupSelected", Json.obj [("name", Json.str "Group")])]

/-! ### The fenced-code-block scanner

`re.findall` of the pattern "triple backtick, optional json tag, `\s*\n`,
lazy body, newline and closing triple backtick" (DOTALL), as used by
`Agent.parse_commands_from_ai` (step 2).  Matches are found leftmost first and
non-overlapping; the greedy `\s*` backtracks from the longest whitespace run,
and the lazy body takes the earliest closing delimiter. -/

def fence3 : List Char := [btick, btick, btick]

/-- Earliest occurrence of `sep` in the input: the part before it and the part
after it. -/
def firstSplitOn (sep : List Char) : List Char → Option (List Char × List Char)
  | [] => none
  | c :: cs =>
    if sep.isPrefixOf (c :: cs) then some ([], (c :: cs).drop sep.length)
    else
      match firstSplitOn sep cs with
      | some (p, r) => some (c :: p, r)
      | none => none

/-- The lazy `(.*?)\n` plus closing fence: earliest split on newline-fence. -/
def fenceBody (t : List Char) : Option (List Char × List Char) :=
  firstSplitOn ('\n' :: fence3) t

/-- Indices of newline characters within the whitespace run, in descending
order (the backtracking order of a greedy `\s*` followed by a literal
newline). -/
def newlineIdxsRev (wsp : List Char) : List Nat :=
  ((List.range wsp.length).filter (fun i => wsp.getD i ' ' = '\n')).reverse

def fenceTagGo (t : List Char) : List Nat → Option (List Char × List Char)
  | [] => none
  | i :: rest =>
    match fenceBody (t.drop (i + 1)) with
    | some r => some r
    | none => fenceTagGo t rest

/-- Match `\s*\n(.*?)\n` + closing fence at the start of `t`. -/
def fenceAfterTicks (t : List Char) : Option (List Char × List Char) :=
  fenceTagGo t (newlineIdxsRev (t.takeWhile isPyWs))

/-- Try to match the whole fenced-block pattern at the start of the input;
returns the captured body and the input after the match.  The optional `json`
tag is greedy: the tagged alternative is preferred, falling back to the
untagged one. -/
def fenceMatchAt (cs : List Char) : Option (List Char × List Char) :=
  if fence3.isPrefixOf cs then
    let t := cs.drop 3
    let withTag :=
      if ['j', 's', 'o', 'n'].isPrefixOf t then fenceAfterTicks (t.drop 4) else none
    match withTag with
    | some r => some r
    | none => fenceAfterTicks t
  else none

def findCodeBlocksAux : Nat → List Char → List (List Char)
  | 0, _ => []
  | _, [] => []
  | n + 1, c :: cs =>
    match fenceMatchAt (c :: cs) with
    | some (g, rest) => g :: findCodeBlocksAux n rest
    | none => findCodeBlocksAux n cs

/-- All captured fenced-block bodies, leftmost first. -/
def findCodeBlocks (cs : List Char) : List (List Char) := findCodeBlocksAux cs.length cs

/-! ### The brace-scanning fallback

`re.findall` of a brace-delimited run of non-brace characters containing the
literal `"action"` (step 3 of `Agent.parse_commands_from_ai`).  Because the
run excludes braces, a match is exactly: an opening brace whose following
brace-free run contains the literal and ends at a closing brace. -/

def actionLit : List Char := '"' :: ('a' :: 'c' :: 't' :: 'i' :: 'o' :: 'n' :: ['"'])

def braceMatchesAux : Nat → List Char → List (List Char)
  | 0, _ => []
  | _, [] => []
  | n + 1, c :: cs =>
    if c = lbrace then
      let run := cs.takeWhile (fun x => x != lbrace && x != rbrace)
      match cs.drop run.length with
      | r0 :: rest2 =>
        if r0 = rbrace then
          if pySubstr actionLit run then
            (lbrace :: (run ++ [rbrace])) :: braceMatchesAux n rest2
          else braceMatchesAux n rest2
        else braceMatchesAux n (cs.drop run.length)
      | [] => []
    else braceMatchesAux n cs

/-- All matches of the single-level brace pattern, leftmost first,
non-overlapping. -/
def braceMatches (cs : List Char) : List (List Char) := braceMatchesAux cs.length cs

/-! ### Embedding of `api_handler.py` -/

/-- One pass of `extract_text_from_claude_response` over the content blocks:
collect the `text` entry of every block whose `type` equals "text".  `none`
models an exception escaping the loop (a non-dict block, or a "text"-typed
block with no `text` key). -/
def collectTextBlocks : List Json → Option (List Json)
  | [] => some []
  | b :: bs =>
    match b with
    | Json.obj fs =>
      match jGet fs "type" with
      | some (Json.str t) =>
        if t = "text" then
          match jGet fs "text" with
          | some v =>
            match collectTextBlocks bs with
            | some vs => some (v :: vs)
            | none => none
          | none => none
        else collectTextBlocks bs
      | _ => collectTextBlocks bs
    | _ => none

/-- `"\n".join(text_blocks)` requires every collected entry to be a string
(else a TypeError escapes, handled as empty text). -/
def allStrings : List Json → Option (List String)
  | [] => some []
  | Json.str s :: rest =>
    match allStrings rest with
    | some l => some (s :: l)
    | none => none
  | _ => none

/-- `api_handler.extract_text_from_claude_response`: join the text blocks of
the response's `content` array with newlines; any other shape (or any
exception inside) yields the empty string.  Total, never raises. -/
def extract_text_from_claude_response (response : Json) : String :=
  match response with
  | Json.obj fs =>
    match jGet fs "content" with
    | some (Json.arr blocks) =>
      match collectTextBlocks blocks with
      | some vs =>
        match allStrings vs with
        | some strs => String.intercalate "\n" strs
        | none => ""
      | none => ""
    | _ => ""
  | _ => ""

/-- The per-block step shared by the blank-line strategies: strip the block,
skip it when empty, `json.loads` it, and accept the result only when it is a
dict containing `"action"`. -/
def blockToCommand (b : List Char) : Option Json :=
  let b2 := pyStrip b
  if b2.isEmpty then none
  else
    match pyJsonLoadsL b2 with
    | some cmd => if isCommandDict cmd then some cmd else none
    | none => none

/-- `api_handler.extract_commands_from_text`: empty text yields no commands;
otherwise strip, split on blank lines, and parse each block. -/
def extract_commands_from_text (text : String) : List Json :=
  if text = "" then []
  else (pySplitOn "\n\n" (pyStrip text.toList)).filterMap blockToCommand

/-! ### Embedding of `agent.py` -/

/-- Step 1 of `Agent.parse_commands_from_ai`: split the completion on blank
lines (no prior strip of the whole text, unlike
`extract_commands_from_text`) and parse each block. -/
def pcfa_method1 (completion : String) : List Json :=
  (pySplitOn "\n\n" completion.toList).filterMap blockToCommand

/-- Commands taken from one fenced code block: a stripped block starting with
a bracket is loaded as a JSON array and every member dict with `"action"` is
accepted; one starting with a brace is loaded as a single object accepted
under the same condition; parse failures contribute nothing. -/
def codeBlockCmds (block : List Char) : List Json :=
  match pyStrip block with
  | c :: _ =>
    if c = '[' then
      match pyJsonLoadsL block with
      | some (Json.arr l) => l.filter isCommandDict
      | _ => []
    else if c = lbrace then
      match pyJsonLoadsL block with
      | some (Json.obj fs) => if (jGet fs "action").isSome then [Json.obj fs] else []
      | _ => []
    else []
  | [] => []

/-- Step 2 of `Agent.parse_commands_from_ai`: fenced code blocks. -/
def pcfa_method2 (completion : String) : List Json :=
  (findCodeBlocks completion.toList).foldl (fun acc b => acc ++ codeBlockCmds b) []

/-- The per-match step of the regex fallback. -/
def braceToCommand (m : List Char) : Option Json :=
  match pyJsonLoadsL m with
  | some cmd => if isCommandDict cmd then some cmd else none
  | none => none

/-- Step 3 of `Agent.parse_commands_from_ai`: brace-scanning regex fallback. -/
def pcfa_method3 (completion : String) : List Json :=
  (braceMatches completion.toList).filterMap braceToCommand

/-- Step 4 of `Agent.parse_commands_from_ai`: the natural-language keyword
fallback; every pattern in the table that matches appends its command. -/
def pcfa_method4 (completion : String) : List Json :=
  nlPatterns.foldl
    (fun acc p => if Rx.search p.1 completion.toList then acc ++ [p.2] else acc) []

/-- `Agent.parse_commands_from_ai`: the four extraction strategies, each of
steps 2-4 running only when the commands list is still empty. -/
def parse_commands_from_ai (completion : String) : List Json :=
  let commands := pcfa_method1 completion
  let commands := if commands.isEmpty then pcfa_method2 completion else commands
  let commands := if commands.isEmpty then pcfa_method3 completion else commands
  let commands := if commands.isEmpty then pcfa_method4 completion else commands
  commands

/-- `Agent.extract_commands`: the free-standing keyword fallback; every
pattern in its table that matches appends a command built from the fixed
action name and a copy of the default args. -/
def extract_commands (completion : String) : List Json :=
  ecPatterns.foldl
    (fun acc p =>
      if Rx.search p.1 completion.toList then
        acc ++ [Json.obj [("action", Json.str p.2.1), ("args", p.2.2)]]
      else acc) []

/-! ### The argument normalizer family of `agent.py` -/

/-- The value coercion of the generic branch of `Agent.parse_command_args`:
quoted text keeps the quotes stripped; `true`/`false` (case-insensitive)
become booleans; a value containing a dot is tried as a float, otherwise as an
int; any failure keeps the raw trimmed string. -/
def coerceValue (v : List Char) : Json :=
  if v.headD ' ' = '\'' ∨ v.headD ' ' = '"' then
    Json.str (String.mk (pyStripSet (fun x => x = '\'' || x = '"') v))
  else if pyLower v = "true".toList then Json.bool true
  else if pyLower v = "false".toList then Json.bool false
  else if v.contains '.' then
    match pyFloatParse v with
    | some q => Json.float q
    | none => Json.str (String.mk v)
  else
    match pyIntOf v with
    | some n => Json.int n
    | none => Json.str (String.mk v)

/-- The generic branch of `Agent.parse_command_args`: split the call-style
string on commas, split each pair on the first equals sign, trim, and coerce
the value. -/
def parse_command_args_generic (args_str : String) : List (String × Json) :=
  (pySplitOn "," args_str.toList).foldl
    (fun args pair =>
      match firstSplitOn ['='] pair with
      | some (key, value) =>
        pySetEntry args (String.mk (pyStrip key)) (coerceValue (pyStrip value))
      | none => args)
    []

/-- The defaulting block of `Agent.parse_primitive_args`: when neither `size`
nor `radius` is present, inject the family default. -/
def primitiveDefaults (action : String) (args : List (String × Json)) :
    List (String × Json) :=
  if (jGet args "size").isNone ∧ (jGet args "radius").isNone then
    if action = "AddCube" then pySetEntry args "size" (Json.int 200)
    else if action = "AddSphere" then pySetEntry args "radius" (Json.int 100)
    else args
  else args

/-- `Agent.parse_primitive_args` (its inner `parse_command_args("", ...)` call
reaches the generic branch, since the empty action is in no family). -/
def parse_primitive_args (action : String) (args_str : String) : List (String × Json) :=
  primitiveDefaults action (parse_command_args_generic args_str)

/-- The color regex of `Agent.parse_material_args`: `re.search` for a
bracketed run of digits, dots, commas and whitespace; returns the captured
run.  (The character class excludes both brackets, so a match is the leftmost
opening bracket whose maximal class run is non-empty and immediately followed
by a closing bracket.) -/
def colorClass (c : Char) : Bool := c.isDigit || c = '.' || c = ',' || isPyWs c

def colorListSearch : List Char → Option (List Char)
  | [] => none
  | c :: cs =>
    if c = '[' then
      let run := cs.takeWhile colorClass
      if run.isEmpty then colorListSearch cs
      else
        match cs.drop run.length with
        | r0 :: _ => if r0 = ']' then some run else colorListSearch cs
        | [] => colorListSearch cs
    else colorListSearch cs

/-- The color-coercion block of `Agent.parse_material_args`: a string-valued
`color` whose bracketed list is found is replaced by the list of floats; any
failure (no bracketed run, or a piece `float` rejects) leaves the args
untouched. -/
def materialColorCoerce (args : List (String × Json)) : List (String × Json) :=
  match jGet args "color" with
  | some (Json.str s) =>
    match colorListSearch s.toList with
    | some grp =>
      match (pySplitOn "," grp).mapM (fun x => pyFloatParse x) with
      | some qs => pySetEntry args "color" (Json.arr (qs.map Json.float))
      | none => args
    | none => args
  | _ => args

/-- The defaulting block of `Agent.parse_material_args`: coerce a string
color, then default `name` to "NewMaterial" and `color` to white. -/
def materialDefaults (args : List (String × Json)) : List (String × Json) :=
  let args1 := materialColorCoerce args
  let args2 :=
    if (jGet args1 "name").isSome then args1
    else pySetEntry args1 "name" (Json.str "NewMaterial")
  if (jGet args2 "color").isSome then args2
  else pySetEntry args2 "color" (Json.arr [Json.int 1, Json.int 1, Json.int 1])

/-- `Agent.parse_material_args`. -/
def parse_material_args (args_str : String) : List (String × Json) :=
  materialDefaults (parse_command_args_generic args_str)

/-- The defaulting block of `Agent.parse_duplicate_args`. -/
def duplicateDefaults (args : List (String × Json)) : List (String × Json) :=
  let args1 :=
    if (jGet args "count").isSome then args else pySetEntry args "count" (Json.int 1)
  let args2 :=
    if (jGet args1 "axis").isSome then args1 else pySetEntry args1 "axis" (Json.str "X")
  if (jGet args2 "distance").isSome then args2
  else pySetEntry args2 "distance" (Json.int 100)

/-- `Agent.parse_duplicate_args`. -/
def parse_duplicate_args (args_str : String) : List (String × Json) :=
  duplicateDefaults (parse_command_args_generic args_str)

/-- `Agent.parse_command_args`: dispatch on the action family. -/
def parse_command_args (action : String) (args_str : String) : List (String × Json) :=
  if action = "AddCube" ∨ action = "AddSphere" then parse_primitive_args action args_str
  else if action = "CreateMaterial" then parse_material_args args_str
  else if action = "Duplicate" then parse_duplicate_args args_str
  else parse_command_args_generic args_str

/-- Modelled from the spec (§4.3): the unified `ArgumentNormalizer.Normalize`
entry point on an already-structured argument mapping.  No function in
`src/` accepts a mapping (the `parse_*_args` family parses call-style
strings and is never invoked by the orchestrator), so the mapping entry point
follows the spec's words: the generic coercion step is skipped for structured
mappings and only the action-selected defaulting family is applied; the
dispatch mirrors `Agent.parse_command_args`, and the families are the source's
post-coercion defaulting blocks. -/
def Normalize (action : String) (rawArgs : List (String × Json)) : List (String × Json) :=
  if action = "AddCube" ∨ action = "AddSphere" then primitiveDefaults action rawArgs
  else if action = "CreateMaterial" then materialDefaults rawArgs
  else if action = "Duplicate" then duplicateDefaults rawArgs
  else rawArgs

/-! ### Rule loading and matching (`Agent.reload_rules`, `Agent.match_prompt`) -/

/-- One line of the rule file: strip it; a blank or comment line is skipped,
any other line is `json.loads`-parsed and skipped with a diagnostic on
failure. -/
def parseRuleLine (line : String) : Option Json :=
  let l := pyStrip line.toList
  if l.isEmpty then none
  else if pyStartsWith "#" l then none
  else pyJsonLoadsL l

/-- `Agent.reload_rules`, over the file-system facts it consumes: whether the
rule file exists and, if so, its lines.  A missing file is not read and yields
no rules; the function returns `True` in every case that raises no unexpected
exception (which this model cannot), paired here with the freshly loaded rule
set that replaces the old one wholesale. -/
def reload_rules (fileExists : Bool) (lines : List String) : Bool × List Json :=
  (true, if fileExists then lines.filterMap parseRuleLine else [])

/-- Python's `"prompt_contains" in rule` for the JSON shapes a rule line can
hold: key lookup on a dict, string-element membership on a list, substring
test on a string, and a TypeError on the rest. -/
def pyRuleHasTrigger (rule : Json) (key : String) : Except String Bool :=
  match rule with
  | Json.obj fs => Except.ok (jGet fs key).isSome
  | Json.arr xs =>
    Except.ok (xs.any (fun x => match x with | Json.str s => s = key | _ => false))
  | Json.str s => Except.ok (pySubstr key.toList s.toList)
  | _ => Except.error "argument of type is not iterable"

/-- The rule-iteration loop of `Agent.match_prompt`: the first rule whose
lowercased trigger is a substring of the lowercased prompt returns that rule's
`commands` (default empty list); no match returns the empty list.  The
`Except` layer carries the exceptions Python would raise on ill-shaped rules
(subscripting a non-dict, `.lower()` on a non-string). -/
def matchLoop : List Json → String → Except String Json
  | [], _ => Except.ok (Json.arr [])
  | rule :: rest, prompt =>
    match pyRuleHasTrigger rule "prompt_contains" with
    | Except.error e => Except.error e
    | Except.ok false => matchLoop rest prompt
    | Except.ok true =>
      match rule with
      | Json.obj fs =>
        match jGet fs "prompt_contains" with
        | some (Json.str trig) =>
          if pySubstr (pyLower trig.toList) (pyLower prompt.toList) then
            Except.ok ((jGet fs "commands").getD (Json.arr []))
          else matchLoop rest prompt
        | some _ => Except.error "lower is not an attribute"
        | none => Except.error "key error"
      | _ => Except.error "not subscriptable"

/-- `Agent.match_prompt`: when the `use_rules` preference is off, rule
matching is skipped entirely (reported as the empty list). -/
def match_prompt (useRules : Bool) (rules : List Json) (prompt : String) :
    Except String Json :=
  if useRules then matchLoop rules prompt else Except.ok (Json.arr [])

/-! ### The orchestrator (`Agent.process_prompt`) -/

/-- The result envelope of `Agent.process_prompt`. -/
structure PResult where
  source : String
  completion : String
  commands : Json

/-- The `except` branch of `Agent.process_prompt`. -/
def errorResult (msg : String) : PResult :=
  PResult.mk "error" ("Error: " ++ msg) (Json.arr [])

/-- `Agent.process_prompt`.  The external LLM client is a parameter: its
outcome is either the provider response object or the message of the raised
exception (missing API key, HTTP error, network failure).  A truthy rule
match returns the rule envelope without consulting the client; otherwise the
client outcome decides between the error envelope and the AI envelope, whose
commands are `extract_commands_from_text` applied to the unwrapped completion
text.  No normalization step touches the extracted commands. -/
def process_prompt (useRules : Bool) (rules : List Json)
    (llmOutcome : Except String Json) (prompt : String) : PResult :=
  match match_prompt useRules rules prompt with
  | Except.error e => errorResult e
  | Except.ok commands =>
    if pyTruthy commands then PResult.mk "rule" "Executing predefined rule" commands
    else
      match llmOutcome with
      | Except.error e => errorResult e
      | Except.ok response =>
        let text := extract_text_from_claude_response response
        PResult.mk "ai" text (Json.arr (extract_commands_from_text text))

/-! ### Spec-side comparison definitions -/

/-- Modelled from the spec (§4.1 Match): does this rule's lowercased trigger
occur in the lowercased prompt?  (Spec-shaped rules are objects whose
`prompt_contains`, when present, is a string.) -/
def specRuleMatches (prompt : String) (rule : Json) : Bool :=
  match rule with
  | Json.obj fs =>
    match jGet fs "prompt_contains" with
    | some (Json.str trig) => pySubstr (pyLower trig.toList) (pyLower prompt.toList)
    | _ => false
  | _ => false

/-- Modelled from the spec (§4.1 Match): the commands of the first matching
rule in load order, the empty list when none matches. -/
def specMatch (rules : List Json) (prompt : String) : Json :=
  match rules.find? (specRuleMatches prompt) with
  | some (Json.obj fs) => (jGet fs "commands").getD (Json.arr [])
  | _ => Json.arr []

/-- A well-shaped rule as the data model describes: a JSON object whose
`prompt_contains` entry, when present, is a string. -/
def wfRule : Json → Bool
  | Json.obj fs =>
    match jGet fs "prompt_contains" with
    | some (Json.str _) => true
    | some _ => false
    | none => true
  | _ => false

/-- The claim-side check of C1: do the command's args contain `size: 200`? -/
def argsContainSize200 : Json → Bool
  | Json.obj fs =>
    match jGet fs "args" with
    | some (Json.obj afs) =>
      match jGet afs "size" with
      | some (Json.int n) => n == 200
      | _ => false
    | _ => false
  | _ => false

/-! ### Concrete fixtures -/

/-- The mocked completion text of C1: `{"action":"AddCube","args":{}}`. -/
def mockAddCubeText : String := "\x7b\"action\":\"AddCube\",\"args\":\x7b\x7d\x7d"

/-- The mocked provider response of C1: one text content block holding
`mockAddCubeText`. -/
def mockClaudeResponse : Json :=
  Json.obj [("content", Json.arr
    [Json.obj [("type", Json.str "text"), ("text", Json.str mockAddCubeText)]])]

/-- The command `extract_commands_from_text` extracts from `mockAddCubeText`. -/
def mockAddCubeCmd : Json :=
  Json.obj [("action", Json.str "AddCube"), ("args", Json.obj [])]

/-- A rule whose trigger is "add a cube" and whose commands list is empty. -/
def emptyCommandsRule : Json :=
  Json.obj [("prompt_contains", Json.str "add a cube"), ("commands", Json.arr [])]

/-- `json.dumps({"action": "AddCube", "args": {"size": 100}})`. -/
def cubeDumpText : String :=
  "\x7b\"action\": \"AddCube\", \"args\": \x7b\"size\": 100\x7d\x7d"

/-- `json.dumps({"action": "AddSphere", "args": {"diameter": 100}})`. -/
def sphereDumpText : String :=
  "\x7b\"action\": \"AddSphere\", \"args\": \x7b\"diameter\": 100\x7d\x7d"

def cubeDumpCmd : Json :=
  Json.obj [("action", Json.str "AddCube"), ("args", Json.obj [("size", Json.int 100)])]

def sphereDumpCmd : Json :=
  Json.obj [("action", Json.str "AddSphere"),
    ("args", Json.obj [("diameter", Json.int 100)])]

/-- The C4 input: natural language with no JSON. -/
def nlFallbackInput : String := "please add a cube and a sphere"

/-- The one command the natural-language fallback synthesizes for C4's
input. -/
def nlCubeCmd : Json :=
  Json.obj [("action", Json.str "AddCube"),
    ("args", Json.obj [("size", Json.int 100), ("name", Json.str "Cube")])]

/-- A well-shaped singleton rule set for C7's witness. -/
def cubeRules : List Json :=
  [Json.obj [("prompt_contains", Json.str "add a cube"),
    ("commands", Json.arr [mockAddCubeCmd])]]

/-! ### Helper lemmas -/

/-- A fold that appends one mapped element per passing entry is the mapped
filter. -/
theorem foldl_append_filter_map {α β : Type} (p : α → Bool) (f : α → β)
    (l : List α) : ∀ init : List β,
      l.foldl (fun acc x => if p x then acc ++ [f x] else acc) init
        = init ++ (l.filter p).map f := by
  induction l with
  | nil => intro init; simp
  | cons x xs ih =>
    intro init
    by_cases h : p x <;> simp [List.filter_cons, h, ih]

/-- A fold that appends a block of elements per entry is the flattened map. -/
theorem foldl_append_flat {α β : Type} (f : α → List β)
    (l : List α) : ∀ init : List β,
      l.foldl (fun acc x => acc ++ f x) init = init ++ l.flatMap f := by
  induction l with
  | nil => intro init; simp
  | cons x xs ih => intro init; simp [ih]

theorem blockToCommand_isCommand {b : List Char} {cmd : Json}
    (h : blockToCommand b = some cmd) : isCommandDict cmd = true := by
  simp only [blockToCommand] at h
  by_cases he : (pyStrip b).isEmpty
  · simp [he] at h
  · simp only [he, if_false, Bool.false_eq_true] at h
    cases hl : pyJsonLoadsL (pyStrip b) with
    | none => rw [hl] at h; exact absurd h (by simp)
    | some c =>
      rw [hl] at h
      by_cases hc : isCommandDict c
      · simp only [hc, if_true] at h
        cases h
        exact hc
      · simp [hc] at h

theorem braceToCommand_isCommand {m : List Char} {cmd : Json}
    (h : braceToCommand m = some cmd) : isCommandDict cmd = true := by
  simp only [braceToCommand] at h
  cases hl : pyJsonLoadsL m with
  | none => rw [hl] at h; exact absurd h (by simp)
  | some c =>
    rw [hl] at h
    by_cases hc : isCommandDict c
    · simp only [hc, if_true] at h
      cases h
      exact hc
    · simp [hc] at h

theorem codeBlockCmds_isCommand {b : List Char} {cmd : Json}
    (h : cmd ∈ codeBlockCmds b) : isCommandDict cmd = true := by
  simp only [codeBlockCmds] at h
  cases hs : pyStrip b with
  | nil => rw [hs] at h; exact absurd h (by simp)
  | cons c rest =>
    rw [hs] at h
    by_cases h1 : c = '['
    · simp only [h1, if_true] at h
      cases hl : pyJsonLoadsL b with
      | none => rw [hl] at h; exact absurd h (by simp)
      | some v =>
        rw [hl] at h
        rcases v with _ | bv | nv | qv | sv | l | fs
        · simp at h
        · simp at h
        · simp at h
        · simp at h
        · simp at h
        · exact (List.mem_filter.mp h).2
        · simp at h
    · simp only [h1, if_false] at h
      by_cases h2 : c = lbrace
      · simp only [h2, if_true] at h
        cases hl : pyJsonLoadsL b with
        | none => rw [hl] at h; exact absurd h (by simp)
        | some v =>
          rw [hl] at h
          rcases v with _ | bv | nv | qv | sv | l | fs
          · simp at h
          · simp at h
          · simp at h
          · simp at h
          · simp at h
          · simp at h
          · by_cases ha : (jGet fs "action").isSome
            · simp only [ha, if_true, List.mem_singleton] at h
              subst h
              simpa [isCommandDict] using ha
            · simp [ha] at h
      · simp [h2] at h

/-- The action-and-args object every keyword-fallback entry synthesizes is a
command dict. -/
theorem actionFirst_isCommand (s : String) (j : Json) :
    isCommandDict (Json.obj [("action", Json.str s), ("args", j)]) = true := rfl

theorem nlPatterns_wellformed : ∀ p ∈ nlPatterns, isCommandDict p.2 = true := by
  intro p hp
  simp only [nlPatterns, List.mem_cons, List.not_mem_nil, or_false] at hp
  rcases hp with rfl | rfl | rfl | rfl | rfl <;> rfl

theorem mem_pcfa_method1 {text : String} {cmd : Json}
    (h : cmd ∈ pcfa_method1 text) : isCommandDict cmd = true := by
  simp only [pcfa_method1] at h
  obtain ⟨b, -, hb⟩ := List.mem_filterMap.mp h
  exact blockToCommand_isCommand hb

theorem mem_pcfa_method2 {text : String} {cmd : Json}
    (h : cmd ∈ pcfa_method2 text) : isCommandDict cmd = true := by
  simp only [pcfa_method2] at h
  rw [foldl_append_flat] at h
  simp only [List.nil_append] at h
  obtain ⟨b, -, hb⟩ := List.mem_flatMap.mp h
  exact codeBlockCmds_isCommand hb

theorem mem_pcfa_method3 {text : String} {cmd : Json}
    (h : cmd ∈ pcfa_method3 text) : isCommandDict cmd = true := by
  simp only [pcfa_method3] at h
  obtain ⟨b, -, hb⟩ := List.mem_filterMap.mp h
  exact braceToCommand_isCommand hb

theorem mem_pcfa_method4 {text : String} {cmd : Json}
    (h : cmd ∈ pcfa_method4 text) : isCommandDict cmd = true := by
  simp only [pcfa_method4] at h
  rw [foldl_append_filter_map (fun p => Rx.search p.1 text.toList) Prod.snd] at h
  simp only [List.nil_append] at h
  obtain ⟨p, hp, hcmd⟩ := List.mem_map.mp h
  subst hcmd
  exact nlPatterns_wellformed p (List.mem_of_mem_filter hp)

theorem mem_parse_commands_from_ai {text : String} {cmd : Json}
    (h : cmd ∈ parse_commands_from_ai text) :
    cmd ∈ pcfa_method1 text ∨ cmd ∈ pcfa_method2 text ∨ cmd ∈ pcfa_method3 text
      ∨ cmd ∈ pcfa_method4 text := by
  simp only [parse_commands_from_ai] at h
  cases h1 : (pcfa_method1 text).isEmpty with
  | false => simp only [h1, Bool.false_eq_true, if_false] at h; exact Or.inl h
  | true =>
    simp only [h1, if_true] at h
    cases h2 : (pcfa_method2 text).isEmpty with
    | false =>
      simp only [h2, Bool.false_eq_true, if_false] at h
      exact Or.inr (Or.inl h)
    | true =>
      simp only [h2, if_true] at h
      cases h3 : (pcfa_method3 text).isEmpty with
      | false =>
        simp only [h3, Bool.false_eq_true, if_false] at h
        exact Or.inr (Or.inr (Or.inl h))
      | true =>
        simp only [h3, if_true] at h
        exact Or.inr (Or.inr (Or.inr h))

/-! ### Claim theorems -/

/-- C1 (counterexample): with rules disabled and the mocked LLM response whose
single text block holds `{"action":"AddCube","args":{}}`, `process_prompt`
does return source "ai" with exactly one command — but that command's args are
exactly the empty mapping: no defaulting family is applied on the AI path, so
the args do not contain `size: 200` as the claim states. -/
theorem process_prompt_ai_no_normalization_ce :
    process_prompt false [] (Except.ok mockClaudeResponse) "add a cube"
        = PResult.mk "ai" mockAddCubeText (Json.arr [mockAddCubeCmd])
      ∧ argsContainSize200 mockAddCubeCmd = false :=
  ⟨rfl, rfl⟩

/-- C1 (amended): with rule matching disabled and the mocked LLM response,
`process_prompt` returns source "ai" and exactly one command with action
"AddCube" whose args are exactly the empty mapping — the extracted commands
are returned raw; `process_prompt` never invokes the argument normalizer. -/
theorem process_prompt_ai_raw_command (prompt : String) :
    process_prompt false [] (Except.ok mockClaudeResponse) prompt
      = PResult.mk "ai" mockAddCubeText (Json.arr [mockAddCubeCmd]) := rfl

/-- C2 (counterexample): for the prompt "add a cube" matching a rule whose
commands list is empty, the result of `process_prompt` depends on the LLM
client outcome — a failing client yields the error envelope while a
successful client yields an AI envelope with one extracted command — so the
LLM client is invoked and commands are produced, contrary to the claim. -/
theorem empty_commands_rule_llm_invoked_ce :
    (process_prompt true [emptyCommandsRule] (Except.error "network down")
        "add a cube").source = "error"
  ∧ process_prompt true [emptyCommandsRule] (Except.ok mockClaudeResponse) "add a cube"
      = PResult.mk "ai" mockAddCubeText (Json.arr [mockAddCubeCmd]) :=
  ⟨rfl, rfl⟩

/-- C2 (amended): a first-matching rule with an empty commands list does stop
the rule iteration (the match reports the empty list without consulting later
rules), but `process_prompt` treats that empty list as "no match": it
proceeds to the LLM client, and the result is the client-dependent AI or
error envelope. -/
theorem empty_commands_rule_reaches_llm (trig prompt : String) (rest : List Json)
    (llm : Except String Json)
    (hm : pySubstr (pyLower trig.toList) (pyLower prompt.toList) = true) :
    match_prompt true
        (Json.obj [("prompt_contains", Json.str trig), ("commands", Json.arr [])] :: rest)
        prompt = Except.ok (Json.arr [])
  ∧ process_prompt true
        (Json.obj [("prompt_contains", Json.str trig), ("commands", Json.arr [])] :: rest)
        llm prompt
      = (match llm with
         | Except.error e => errorResult e
         | Except.ok response =>
           PResult.mk "ai" (extract_text_from_claude_response response)
             (Json.arr (extract_commands_from_text
               (extract_text_from_claude_response response)))) := by
  have h1 : match_prompt true
      (Json.obj [("prompt_contains", Json.str trig), ("commands", Json.arr [])] :: rest)
      prompt = Except.ok (Json.arr []) := by
    show (if pySubstr (pyLower trig.toList) (pyLower prompt.toList)
          then Except.ok (Json.arr []) else matchLoop rest prompt)
        = Except.ok (Json.arr [])
    rw [hm]
    simp
  refine ⟨h1, ?_⟩
  unfold process_prompt
  rw [h1]
  cases llm <;> rfl

theorem empty_commands_rule_reaches_llm_witness :
    pySubstr (pyLower "add a cube".toList) (pyLower "ADD A CUBE please".toList) = true
  ∧ match_prompt true [emptyCommandsRule] "ADD A CUBE please" = Except.ok (Json.arr [])
  ∧ process_prompt true [emptyCommandsRule] (Except.ok mockClaudeResponse)
        "ADD A CUBE please"
      = PResult.mk "ai" mockAddCubeText (Json.arr [mockAddCubeCmd]) := by
  have h := empty_commands_rule_reaches_llm "add a cube" "ADD A CUBE please" []
    (Except.ok mockClaudeResponse) rfl
  exact ⟨rfl, h.1, h.2.trans rfl⟩

/-- C3 (confirmed): the extraction is a strict cascade — the fenced-code-block
strategy runs only when the blank-line strategy produced nothing, the
brace-scanning strategy only when the fenced strategy produced nothing, and
when the natural-language step is reached the result is the commands of ALL
matching phrase patterns in table order (not first-match-wins). -/
theorem extraction_cascade_strict (text : String) :
    (pcfa_method1 text ≠ [] → parse_commands_from_ai text = pcfa_method1 text)
  ∧ (pcfa_method1 text = [] → pcfa_method2 text ≠ [] →
      parse_commands_from_ai text = pcfa_method2 text)
  ∧ (pcfa_method1 text = [] → pcfa_method2 text = [] → pcfa_method3 text ≠ [] →
      parse_commands_from_ai text = pcfa_method3 text)
  ∧ (pcfa_method1 text = [] → pcfa_method2 text = [] → pcfa_method3 text = [] →
      parse_commands_from_ai text
        = (nlPatterns.filter (fun p => Rx.search p.1 text.toList)).map Prod.snd) := by
  refine ⟨?_, ?_, ?_, ?_⟩
  · intro h1
    have e1 : (pcfa_method1 text).isEmpty = false := by
      simpa [List.isEmpty_iff] using h1
    simp [parse_commands_from_ai, e1]
  · intro h1 h2
    have e1 : (pcfa_method1 text).isEmpty = true := by simp [List.isEmpty_iff, h1]
    have e2 : (pcfa_method2 text).isEmpty = false := by
      simpa [List.isEmpty_iff] using h2
    simp [parse_commands_from_ai, e1, e2]
  · intro h1 h2 h3
    have e1 : (pcfa_method1 text).isEmpty = true := by simp [List.isEmpty_iff, h1]
    have e2 : (pcfa_method2 text).isEmpty = true := by simp [List.isEmpty_iff, h2]
    have e3 : (pcfa_method3 text).isEmpty = false := by
      simpa [List.isEmpty_iff] using h3
    simp [parse_commands_from_ai, e1, e2, e3]
  · intro h1 h2 h3
    have e1 : (pcfa_method1 text).isEmpty = true := by simp [List.isEmpty_iff, h1]
    have e2 : (pcfa_method2 text).isEmpty = true := by simp [List.isEmpty_iff, h2]
    have e3 : (pcfa_method3 text).isEmpty = true := by simp [List.isEmpty_iff, h3]
    simp only [parse_commands_from_ai, e1, e2, e3, if_true]
    simpa using
      foldl_append_filter_map (fun p => Rx.search p.1 text.toList) Prod.snd nlPatterns []

theorem extraction_cascade_strict_witness :
    pcfa_method1 "add a cube" = [] ∧ pcfa_method2 "add a cube" = []
  ∧ pcfa_method3 "add a cube" = []
  ∧ parse_commands_from_ai "add a cube"
      = (nlPatterns.filter (fun p => Rx.search p.1 "add a cube".toList)).map Prod.snd :=
  ⟨rfl, rfl, rfl, (extraction_cascade_strict "add a cube").2.2.2 rfl rfl rfl⟩

/-- C4 (counterexample): on "please add a cube and a sphere" the extraction
returns exactly ONE command (AddCube), not two — "and a sphere" is not
preceded by one of the verbs create/add/make, so the sphere phrase pattern
does not match. -/
theorem nl_fallback_one_command_ce :
    parse_commands_from_ai nlFallbackInput = [nlCubeCmd]
  ∧ (parse_commands_from_ai nlFallbackInput).length ≠ 2 :=
  ⟨rfl, by decide⟩

/-- C4 (amended): on "please add a cube and a sphere" (no JSON) the
extraction falls through to the natural-language fallback and yields exactly
one command, with action "AddCube"; no AddSphere command is produced because
the sphere pattern requires a create/add/make verb immediately before
"a sphere". -/
theorem nl_fallback_single_cube :
    parse_commands_from_ai nlFallbackInput = [nlCubeCmd] := rfl

/-- C5 (confirmed): on the AI path (rule matching produced a falsy command
list), a failing LLM client outcome is converted into the error envelope
`{source: "error", completion: "Error: <message>", commands: []}`; since the
embedded `process_prompt` is a total function, the failure is never
propagated to the caller. -/
theorem llm_error_converted (useRules : Bool) (rules : List Json) (prompt msg : String)
    (v : Json) (hmatch : match_prompt useRules rules prompt = Except.ok v)
    (hfalsy : pyTruthy v = false) :
    process_prompt useRules rules (Except.error msg) prompt
      = PResult.mk "error" ("Error: " ++ msg) (Json.arr []) := by
  unfold process_prompt
  rw [hmatch]
  show (if pyTruthy v = true then PResult.mk "rule" "Executing predefined rule" v
        else errorResult msg) = PResult.mk "error" ("Error: " ++ msg) (Json.arr [])
  rw [hfalsy]
  simp [errorResult]

theorem llm_error_converted_witness :
    match_prompt false [] "make a beach scene" = Except.ok (Json.arr [])
  ∧ pyTruthy (Json.arr []) = false
  ∧ process_prompt false [] (Except.error "Missing API key") "make a beach scene"
      = PResult.mk "error" "Error: Missing API key" (Json.arr []) :=
  ⟨rfl, rfl,
    (llm_error_converted false [] "make a beach scene" "Missing API key"
      (Json.arr []) rfl rfl).trans rfl⟩

/-- C6 (counterexample): loading from a non-existent source returns `true`
(paired with the empty rule set), so the return value does not report whether
the rule file existed or was read — under the claim it would have to be
`false` here. -/
theorem reload_missing_returns_true_ce :
    ¬ ((reload_rules false ["\x7b\"a\": 1\x7d"]).1 = false) := by decide

/-- C6 (amended): every non-blank, non-comment line that fails to parse as a
JSON object is skipped and loading continues with the remaining lines (one
bad rule never aborts the load); a non-existent source yields an empty rule
set rather than an error; and the return value reports completion without an
internal error — it is `true` in every modelled case, including a
non-existent source, rather than reporting whether the file existed. -/
theorem reload_skips_bad_lines (pre post : List String) (bad : String)
    (hbad : parseRuleLine bad = none) :
    reload_rules true (pre ++ bad :: post)
        = (true, (reload_rules true pre).2 ++ (reload_rules true post).2)
  ∧ (∀ lines : List String, reload_rules false lines = (true, []))
  ∧ (∀ (ex : Bool) (lines : List String), (reload_rules ex lines).1 = true) := by
  refine ⟨?_, fun _ => rfl, fun _ _ => rfl⟩
  simp [reload_rules, List.filterMap_append, List.filterMap_cons, hbad]

theorem reload_skips_bad_lines_witness :
    parseRuleLine "oops not json" = none
  ∧ reload_rules true (["\x7b\"a\": 1\x7d"] ++ "oops not json" :: ["\x7b\"b\": 2\x7d"])
        = (true, (reload_rules true ["\x7b\"a\": 1\x7d"]).2
            ++ (reload_rules true ["\x7b\"b\": 2\x7d"]).2)
  ∧ (∀ lines : List String, reload_rules false lines = (true, []))
  ∧ (∀ (ex : Bool) (lines : List String), (reload_rules ex lines).1 = true) :=
  ⟨rfl, reload_skips_bad_lines ["\x7b\"a\": 1\x7d"] ["\x7b\"b\": 2\x7d"] "oops not json" rfl⟩

/-- Helper for C7: over well-shaped rules the iteration loop returns the
commands of the first rule whose lowercased trigger occurs in the lowercased
prompt. -/
theorem matchLoop_eq_specMatch (prompt : String) (rules : List Json)
    (hwf : ∀ r ∈ rules, wfRule r = true) :
    matchLoop rules prompt = Except.ok (specMatch rules prompt) := by
  induction rules with
  | nil => rfl
  | cons rule rest ih =>
    have hr : wfRule rule = true := hwf rule (List.mem_cons_self rule rest)
    have hrest : ∀ r ∈ rest, wfRule r = true :=
      fun r hm => hwf r (List.mem_cons_of_mem rule hm)
    rcases rule with _ | bv | nv | qv | sv | xs | fs
    · exact absurd hr (by simp [wfRule])
    · exact absurd hr (by simp [wfRule])
    · exact absurd hr (by simp [wfRule])
    · exact absurd hr (by simp [wfRule])
    · exact absurd hr (by simp [wfRule])
    · exact absurd hr (by simp [wfRule])
    · cases hpc : jGet fs "prompt_contains" with
      | none =>
        have hlhs : matchLoop (Json.obj fs :: rest) prompt = matchLoop rest prompt := by
          simp [matchLoop, pyRuleHasTrigger, hpc]
        have hspec : specRuleMatches prompt (Json.obj fs) = false := by
          simp [specRuleMatches, hpc]
        rw [hlhs, ih hrest]
        simp [specMatch, List.find?_cons, hspec]
      | some v =>
        rcases v with _ | bv | nv | qv | trig | xs | gs
        · exact absurd hr (by simp [wfRule, hpc])
        · exact absurd hr (by simp [wfRule, hpc])
        · exact absurd hr (by simp [wfRule, hpc])
        · exact absurd hr (by simp [wfRule, hpc])
        · -- string trigger
          have hspec : specRuleMatches prompt (Json.obj fs)
              = pySubstr (pyLower trig.data) (pyLower prompt.data) := by
            simp [specRuleMatches, hpc, String.toList]
          cases hs : pySubstr (pyLower trig.data) (pyLower prompt.data) with
          | true =>
            have hlhs : matchLoop (Json.obj fs :: rest) prompt
                = Except.ok ((jGet fs "commands").getD (Json.arr [])) := by
              simp [matchLoop, pyRuleHasTrigger, hpc, String.toList, hs]
            rw [hlhs]
            simp [specMatch, List.find?_cons, hspec, hs]
          | false =>
            have hlhs : matchLoop (Json.obj fs :: rest) prompt = matchLoop rest prompt := by
              simp [matchLoop, pyRuleHasTrigger, hpc, String.toList, hs]
            rw [hlhs, ih hrest]
            simp [specMatch, List.find?_cons, hspec, hs]
        · exact absurd hr (by simp [wfRule, hpc])
        · exact absurd hr (by simp [wfRule, hpc])

/-- C7 (confirmed): with rule matching enabled, for every well-shaped rule
list `match_prompt` returns the commands of the first rule in load order
whose lowercased trigger is a substring of the lowercased prompt (the
spec-side `specMatch`); matching is therefore case-insensitive. -/
theorem match_first_rule_case_insensitive (rules : List Json) (prompt : String)
    (hwf : ∀ r ∈ rules, wfRule r = true) :
    match_prompt true rules prompt = Except.ok (specMatch rules prompt) := by
  simpa [match_prompt] using matchLoop_eq_specMatch prompt rules hwf

theorem match_first_rule_case_insensitive_witness :
    (∀ r ∈ cubeRules, wfRule r = true)
  ∧ match_prompt true cubeRules "ADD A CUBE please"
      = Except.ok (Json.arr [mockAddCubeCmd]) := by
  have hwf : ∀ r ∈ cubeRules, wfRule r = true := by
    intro r hr
    rcases List.mem_singleton.mp hr with rfl
    rfl
  exact ⟨hwf,
    (match_first_rule_case_insensitive cubeRules "ADD A CUBE please" hwf).trans rfl⟩

/-- C8 (confirmed): the material-family normalization of
`{"color": "[1, 0, 0]"}` replaces the bracketed-list string by the numeric
sequence `[1.0, 0.0, 0.0]` and defaults the absent name to "NewMaterial"
(an absent color would default to `[1, 1, 1]`); the function is total, so
normalization cannot raise on this input. -/
theorem normalize_material_color :
    Normalize "CreateMaterial" [("color", Json.str "[1, 0, 0]")]
      = [("color", Json.arr [Json.float (PyFloat.mk 1 1), Json.float (PyFloat.mk 0 1),
          Json.float (PyFloat.mk 0 1)]),
         ("name", Json.str "NewMaterial")] := rfl

/-- C9 (confirmed): the blank-line strategy round-trips well-formed input —
the serialization of `{"action": "AddCube", "args": {"size": 100}}` extracts
to exactly that one command, and two serialized objects separated by a blank
line extract to exactly the two commands in textual order. -/
theorem extract_commands_roundtrip :
    extract_commands_from_text cubeDumpText = [cubeDumpCmd]
  ∧ extract_commands_from_text (cubeDumpText ++ "\n\n" ++ sphereDumpText)
      = [cubeDumpCmd, sphereDumpCmd] :=
  ⟨rfl, rfl⟩

/-- C10 (confirmed): every command any of the three extraction functions
returns, on any input text, is a JSON object containing the key "action". -/
theorem extracted_commands_have_action (text : String) (cmd : Json)
    (h : cmd ∈ extract_commands_from_text text ∨ cmd ∈ parse_commands_from_ai text
        ∨ cmd ∈ extract_commands text) :
    isCommandDict cmd = true := by
  rcases h with h | h | h
  · simp only [extract_commands_from_text] at h
    by_cases ht : text = ""
    · simp [ht] at h
    · rw [if_neg ht] at h
      obtain ⟨b, -, hb⟩ := List.mem_filterMap.mp h
      exact blockToCommand_isCommand hb
  · rcases mem_parse_commands_from_ai h with h | h | h | h
    · exact mem_pcfa_method1 h
    · exact mem_pcfa_method2 h
    · exact mem_pcfa_method3 h
    · exact mem_pcfa_method4 h
  · simp only [extract_commands] at h
    rw [foldl_append_filter_map (fun p : Rx × String × Json => Rx.search p.1 text.toList)
      (fun p : Rx × String × Json =>
        Json.obj [("action", Json.str p.2.1), ("args", p.2.2)]) ecPatterns] at h
    simp only [List.nil_append] at h
    obtain ⟨p, hp, hcmd⟩ := List.mem_map.mp h
    subst hcmd
    exact actionFirst_isCommand p.2.1 p.2.2

theorem extracted_commands_have_action_witness :
    (Json.obj [("action", Json.str "Duplicate"), ("args", Json.obj [("count", Json.int 1)])]
        ∈ extract_commands "duplicate")
  ∧ isCommandDict (Json.obj [("action", Json.str "Duplicate"),
        ("args", Json.obj [("count", Json.int 1)])]) = true := by
  have hm : Json.obj [("action", Json.str "Duplicate"),
        ("args", Json.obj [("count", Json.int 1)])]
      ∈ extract_commands "duplicate" := List.mem_cons_self _ _
  exact ⟨hm, extracted_commands_have_action "duplicate" _ (Or.inr (Or.inr hm))⟩
